import Mathlib

/-!
Shallow embedding of the BrassLoom pipeline (brassloom_harvest.py and
brassloom_sync_gsu.py) together with theorems settling the frozen claims.

Modelling conventions:
* Python strings are modelled as `List Char` (all relevant data is ASCII).
* The current UTC instant (`datetime.datetime.utcnow()`) is a parameter
  `now : Int`, a count of seconds since 1970-01-01T00:00:00Z.
* Calendar dates are integer day numbers with 1970-01-01 = day 0, converted
  to and from civil (year, month, day) triples by the standard civil-calendar
  algorithms below.  A `datetime` at midnight of day `d` is the instant
  `d * 86400`; Python timedelta `.days` floors, which is `Int.fdiv`.
* `datetime.date.today()` is a parameter `today : Int` (a day number).
* Missing JSON fields and absent strings are both modelled as `[]`, since the
  Python code folds them together with `or`/`get(k, "")` defaults at every
  use site relevant to the claims.
-/

def strL (s : String) : List Char := s.data

/-- Python str.lower over ASCII text. -/
def pyLower (s : List Char) : List Char := s.map Char.toLower

/-- Characters treated as whitespace by Python str.strip. -/
def isPySpace (c : Char) : Bool :=
  c = ' ' || c = '\t' || c = '\n' || c = '\r' || c = '\x0b' || c = '\x0c'

/-- Python str.strip: remove leading and trailing whitespace. -/
def pyStrip (s : List Char) : List Char :=
  ((s.dropWhile isPySpace).reverse.dropWhile isPySpace).reverse

/-- leadsWith p s: the pattern p occurs at the very start of s. -/
def leadsWith : List Char → List Char → Bool
  | [], _ => true
  | _ :: _, [] => false
  | a :: p, b :: s => a == b && leadsWith p s

/-- containsSub p s: the Python substring test `p in s`. -/
def containsSub (p : List Char) : List Char → Bool
  | [] => p.isEmpty
  | c :: t => leadsWith p (c :: t) || containsSub p t

/-- Word characters for the regex word boundary (ASCII fragment). -/
def isWordChar (c : Char) : Bool := c.isAlphanum || c = '_'

/-- afterOk t: position just before t is a word boundary on the right. -/
def afterOk : List Char → Bool
  | [] => true
  | c :: _ => !isWordChar c

/-- hasWordAux w prev t: t has a whole-word occurrence of w, where prev records
whether the character immediately preceding t is a word character. -/
def hasWordAux (w : List Char) : Bool → List Char → Bool
  | _, [] => false
  | prev, c :: t =>
      (!prev && leadsWith w (c :: t) && afterOk ((c :: t).drop w.length))
        || hasWordAux w (isWordChar c) t

/-- Whole-word regex search for w in t (the pattern of re.search with both
word boundaries). -/
def hasWord (w t : List Char) : Bool := hasWordAux w false t

/-- Numeric value of an ASCII digit character. -/
def digitVal (c : Char) : Nat := c.toNat - 48

/-- Read a digit string as a natural number (int() on a digit run). -/
def readNat (ds : List Char) : Nat := ds.foldl (fun a c => 10 * a + digitVal c) 0

/-- ASCII digit character for a digit value. -/
def digitCh (d : Nat) : Char := Char.ofNat (48 + d)

/-- Fuel-driven digit expansion, most significant digit first. -/
def natReprAux : Nat → Nat → List Char
  | 0, _ => []
  | _ + 1, 0 => []
  | fuel + 1, n + 1 => natReprAux fuel ((n + 1) / 10) ++ [digitCh ((n + 1) % 10)]

/-- Decimal representation of a natural number, as Python prints it. -/
def natRepr (n : Nat) : List Char := if n = 0 then ['0'] else natReprAux n n

/-- Zero padding to width 4 (Python format 04d). -/
def pad4 (s : List Char) : List Char := List.replicate (4 - s.length) '0' ++ s

/-- Zero padding to width 2 (Python format 02d). -/
def pad2 (s : List Char) : List Char := List.replicate (2 - s.length) '0' ++ s

/-- Gregorian leap-year test. -/
def isLeap (y : Nat) : Bool := y % 4 = 0 && (y % 100 ≠ 0 || y % 400 = 0)

/-- Length of a month in the proleptic Gregorian calendar. -/
def daysInMonth (y m : Nat) : Nat :=
  if m = 2 then (if isLeap y then 29 else 28)
  else if m = 4 ∨ m = 6 ∨ m = 9 ∨ m = 11 then 30 else 31

/-- Validity test applied by the datetime constructor. -/
def validDate (y m d : Nat) : Bool :=
  decide (1 ≤ y) && decide (y ≤ 9999) && decide (1 ≤ m) && decide (m ≤ 12)
    && decide (1 ≤ d) && decide (d ≤ daysInMonth y m)

/-- Day number (1970-01-01 = 0) of a civil date, by the standard
era/year-of-era decomposition. -/
def daysFromCivil (y m d : Nat) : Int :=
  let yi : Int := if m ≤ 2 then (y : Int) - 1 else (y : Int)
  let era : Int := Int.fdiv yi 400
  let yoe : Int := yi - era * 400
  let mp : Int := if m ≤ 2 then (m : Int) + 9 else (m : Int) - 3
  let doy : Int := Int.fdiv (153 * mp + 2) 5 + (d : Int) - 1
  let doe : Int := yoe * 365 + Int.fdiv yoe 4 - Int.fdiv yoe 100 + doy
  era * 146097 + doe - 719468

/-- Civil (year, month, day) of a day number; inverse of daysFromCivil. -/
def civilFromDays (z0 : Int) : Int × Int × Int :=
  let z := z0 + 719468
  let era := Int.fdiv z 146097
  let doe := z - era * 146097
  let yoe := Int.fdiv (doe - Int.fdiv doe 1460 + Int.fdiv doe 36524 - Int.fdiv doe 146096) 365
  let y := yoe + era * 400
  let doy := doe - (365 * yoe + Int.fdiv yoe 4 - Int.fdiv yoe 100)
  let mp := Int.fdiv (5 * doy + 2) 153
  let d := doy - Int.fdiv (153 * mp + 2) 5 + 1
  let m := if mp < 10 then mp + 3 else mp - 9
  (if m ≤ 2 then y + 1 else y, m, d)

/-- date.isoformat(): zero-padded YYYY-MM-DD rendering of a day number. -/
def isoOfDay (z : Int) : List Char :=
  let c := civilFromDays z
  pad4 (natRepr c.1.toNat) ++ '-' :: (pad2 (natRepr c.2.1.toNat) ++ '-' :: pad2 (natRepr c.2.2.toNat))

/-- The day number of the current instant (the UTC calendar date of now). -/
def todayOf (now : Int) : Int := Int.fdiv now 86400

/-- datetime.datetime.fromisoformat restricted to date strings: succeeds on
exactly the strict zero-padded YYYY-MM-DD form denoting a valid date. -/
def parseIsoDate (s : List Char) : Option Int :=
  match s with
  | [y1, y2, y3, y4, h1, m1, m2, h2, d1, d2] =>
    if (y1.isDigit && y2.isDigit && y3.isDigit && y4.isDigit && h1 == '-'
        && m1.isDigit && m2.isDigit && h2 == '-' && d1.isDigit && d2.isDigit) then
      let y := readNat [y1, y2, y3, y4]
      let m := readNat [m1, m2]
      let d := readNat [d1, d2]
      if validDate y m d then some (daysFromCivil y m d) else none
    else none
  | _ => none

/-- fromisoformat applied to the first ten characters, as the harvester does
with date_str[:10]. -/
def fromIso10 (s : List Char) : Option Int := parseIsoDate (s.take 10)

/-- One opportunity record (the dict shape produced by the fetchers, §3 of
the design).  hbcu_msi_score is the field assigned by the scoring pass. -/
structure Item where
  id : List Char := []
  source : List Char := []
  title : List Char := []
  agency : List Char := []
  assistance_listing : List Char := []
  posted_date : List Char := []
  close_date : List Char := []
  eligibility : List Char := []
  url : List Char := []
  tags : List (List Char) := []
  description : List Char := []
  hbcu_msi_score : Int := 0
  deriving DecidableEq

/-- The blob " ".join([title, description, eligibility, agency, source]) built
at the top of score_item, before lowercasing. -/
def joinFields (r : Item) : List Char :=
  r.title ++ ' ' :: (r.description ++ ' ' :: (r.eligibility ++ ' ' :: (r.agency ++ ' ' :: r.source)))

/-- The lowercased text blob score_item matches against. -/
def textOf (r : Item) : List Char := pyLower (joinFields r)

/-- days_left as computed by (cdt - datetime.datetime.utcnow()).days: the
timedelta day count floors, and cdt is midnight of the parsed close date. -/
def urgencyDaysLeft (d now : Int) : Int := Int.fdiv (d * 86400 - now) 86400

/-- The urgency boost of score_item for a parsed close date d. -/
def urgencyBonus (d now : Int) : Int :=
  if 0 ≤ urgencyDaysLeft d now ∧ urgencyDaysLeft d now ≤ 30 then 10
  else if 31 ≤ urgencyDaysLeft d now ∧ urgencyDaysLeft d now ≤ 60 then 5
  else 0

/-- score_item from brassloom_harvest.py.  The keyword loop adds 10 per
case-insensitive substring hit; the regex boosts search for whole-word HBCU
and MSI with re.I over the already lowercased text, hence for lowercase
hbcu and msi; an unparseable or empty close_date contributes no urgency. -/
def score_item (item : Item) (keywords : List (List Char)) (now : Int) : Int :=
  let text := textOf item
  10 * ((keywords.countP fun kw => containsSub (pyLower kw) text : Nat) : Int)
    + (if hasWord (strL "hbcu") text then 20 else 0)
    + (if hasWord (strL "msi") text then 15 else 0)
    + (if item.close_date ≠ [] then
         match fromIso10 item.close_date with
         | some d => urgencyBonus d now
         | none => 0
       else 0)

/-- The urgency addend of score_item, split out for reuse. -/
def urgencyOf (item : Item) (now : Int) : Int :=
  if item.close_date ≠ [] then
    match fromIso10 item.close_date with
    | some d => urgencyBonus d now
    | none => 0
  else 0

/-- within_days from brassloom_harvest.py: empty or unparseable date strings
count as within range; otherwise (utcnow() - dt).days <= days. -/
def within_days (date_str : List Char) (days : Int) (now : Int) : Bool :=
  if date_str = [] then true
  else
    match fromIso10 date_str with
    | none => true
    | some d => decide (Int.fdiv (now - d * 86400) 86400 ≤ days)

/-- The dedup key of the main loop: i.get("url") or i.get("id"). -/
def dedupKey (r : Item) : List Char := if r.url ≠ [] then r.url else r.id

/-- The dedup loop of main, carrying the seen set. -/
def dedupGo (seen : List (List Char)) : List Item → List Item
  | [] => []
  | r :: rest =>
    if dedupKey r ∈ seen then dedupGo seen rest
    else r :: dedupGo (dedupKey r :: seen) rest

/-- De-duplication exactly as in main: start from an empty seen set. -/
def dedupList (l : List Item) : List Item := dedupGo [] l

/-- Modelled from the spec words for C3: keep only the first-seen record for
each dedup key, dropping every later record with the same key. -/
def keepFirstSeen : List Item → List Item
  | [] => []
  | r :: rest => r :: keepFirstSeen (rest.filter fun x => dedupKey x ≠ dedupKey r)
termination_by l => l.length
decreasing_by
  simp only [List.length_cons]
  exact Nat.lt_succ_of_le (List.length_filter_le _ _)

/-- Descending-score comparison used as the sort order of main
(sort by hbcu_msi_score with reverse=True). -/
def scoreGe (a b : Item) : Prop := b.hbcu_msi_score ≤ a.hbcu_msi_score

instance : DecidableRel scoreGe := fun a b => Int.decLe b.hbcu_msi_score a.hbcu_msi_score

instance : IsTotal Item scoreGe := ⟨fun a b => Int.le_total b.hbcu_msi_score a.hbcu_msi_score⟩

instance : IsTrans Item scoreGe := ⟨fun _ _ _ h1 h2 => le_trans h2 h1⟩

/-- Python list.sort(key=score, reverse=True) is a stable descending sort;
it is embedded as a stable insertion sort on the same order. -/
def sortScoresDesc (l : List Item) : List Item := l.insertionSort scoreGe

/-- Lines 154-164 of brassloom_harvest.py: de-duplicate, then sort by score
descending. -/
def dedupAndSort (l : List Item) : List Item := sortScoresDesc (dedupList l)

/-- Read exactly four digits (the strptime %Y pattern). -/
def readYear4 (s : List Char) : Option (Nat × List Char) :=
  match s with
  | a :: b :: c :: d :: rest =>
    if a.isDigit && b.isDigit && c.isDigit && d.isDigit then
      some (readNat [a, b, c, d], rest)
    else none
  | _ => none

/-- Read one or two digits (the strptime %m and %d patterns).  The separator
following the field is never a digit, so taking two digits greedily agrees
with the backtracking regex strptime compiles. -/
def readNum2 (s : List Char) : Option (Nat × List Char) :=
  match s with
  | [] => none
  | [a] => if a.isDigit then some (digitVal a, []) else none
  | a :: b :: rest =>
    if a.isDigit then
      if b.isDigit then some (readNat [a, b], rest) else some (digitVal a, b :: rest)
    else none

/-- Expect a literal separator character. -/
def readSep (c : Char) (s : List Char) : Option (List Char) :=
  match s with
  | d :: rest => if d == c then some rest else none
  | [] => none

/-- strptime(s, "%Y-%m-%d") followed by the datetime constructor check. -/
def strptimeYmd (sep : Char) (s : List Char) : Option Int :=
  match readYear4 s with
  | none => none
  | some (y, s1) =>
    match readSep sep s1 with
    | none => none
    | some s2 =>
      match readNum2 s2 with
      | none => none
      | some (m, s3) =>
        match readSep sep s3 with
        | none => none
        | some s4 =>
          match readNum2 s4 with
          | none => none
          | some (d, s5) =>
            if s5 = [] && validDate y m d then some (daysFromCivil y m d) else none

/-- strptime(s, "%m/%d/%Y") followed by the datetime constructor check. -/
def strptimeMdy (s : List Char) : Option Int :=
  match readNum2 s with
  | none => none
  | some (m, s1) =>
    match readSep '/' s1 with
    | none => none
    | some s2 =>
      match readNum2 s2 with
      | none => none
      | some (d, s3) =>
        match readSep '/' s3 with
        | none => none
        | some s4 =>
          match readYear4 s4 with
          | none => none
          | some (y, s5) =>
            if s5 = [] && validDate y m d then some (daysFromCivil y m d) else none

/-- parse_date from brassloom_sync_gsu.py: truncate to ten characters, then
try "%Y-%m-%d", "%m/%d/%Y", "%Y/%m/%d" in order. -/
def parse_date (s : List Char) : Option Int :=
  if s = [] then none
  else
    let t := s.take 10
    match strptimeYmd '-' t with
    | some d => some d
    | none =>
      match strptimeMdy t with
      | some d => some d
      | none => strptimeYmd '/' t

/-- The numeric suffix match re.match(prefix + r"(\d+)", s): the string must
start with the prefix followed by at least one digit. -/
def pidNum (pfx : List Char) (s : List Char) : Option Nat :=
  if leadsWith pfx s then
    let ds := (s.drop pfx.length).takeWhile Char.isDigit
    if ds.isEmpty then none else some (readNat ds)
  else none

/-- next_id from brassloom_sync_gsu.py: max matched suffix + 1, or 1 when
nothing matches, rendered zero-padded to four digits. -/
def next_id (existing_ids : List (List Char)) (pfx : List Char) : List Char :=
  let nums := existing_ids.filterMap (pidNum pfx)
  let nxt := if nums.isEmpty then 1 else nums.foldl max 0 + 1
  pfx ++ pad4 (natRepr nxt)

/-- The initial nums list scanned by next_task_id from the existing task IDs
(the closure state the returned lambda mutates). -/
def taskNums (existing_ids : List (List Char)) : List Nat :=
  existing_ids.filterMap (pidNum (strL "TSK-"))

/-- One call of the lambda returned by next_task_id: append last + 1 to nums
and emit it (or 1 into an empty nums).  The max-based nxt computed by
next_task_id is dead code and never reaches the lambda. -/
def genTask (ns : List Nat) : List Char × List Nat :=
  match ns.getLast? with
  | none => (strL "TSK-" ++ pad4 (natRepr 1), [1])
  | some l => (strL "TSK-" ++ pad4 (natRepr (l + 1)), ns ++ [l + 1])

/-- The per-import proposal-id increment at the end of the main loop
(re.match GSU-P-(\d+) on the current id, plus one, re-render 04d). -/
def incrementPid (pid : List Char) : List Char :=
  let nxt := match pidNum (strL "GSU-P-") pid with
    | some n => n + 1
    | none => 1
  strL "GSU-P-" ++ pad4 (natRepr nxt)

/-- The federal-agency keyword list of sponsor_type_from_agency. -/
def fedKeys : List (List Char) :=
  [strL "national science foundation", strL "nih", strL "health", strL "grants.gov",
   strL "nasa", strL "nsf", strL "department of", strL "dod", strL "doe", strL "usda",
   strL "epa", strL "nsf funding", strL "nih guide"]

/-- sponsor_type_from_agency from brassloom_sync_gsu.py.  Note the early
return of the empty string on a falsy agency. -/
def sponsor_type_from_agency (agency : List Char) : List Char :=
  if agency = [] then []
  else
    let low := pyLower agency
    if fedKeys.any (fun k => containsSub k low) then strL "Federal"
    else if containsSub (strL "board of regents") low || containsSub (strL "state") low then
      strL "State"
    else strL "Nonprofit"

/-- The PI block of the configuration file. -/
structure ConfigPI where
  pid : List Char := []
  name : List Char := []
  dept : List Char := []
  college : List Char := []
  deriving DecidableEq

/-- The configuration document of the sync tool; optional entries model
cfg.get with a default. -/
structure Config where
  default_pi : ConfigPI := {}
  internal_deadline_offset_days : Option Int := none
  default_proposal_type : Option (List Char) := none
  default_status : Option (List Char) := none
  mechanism_map : List (List Char × List Char) := []
  keywords : List (List Char) := []
  deriving DecidableEq

/-- mechanism_from_source from brassloom_sync_gsu.py: first mechanism_map
entry whose key occurs in source-or-agency, else the grants.gov URL
heuristic, else Other. -/
def mechanism_from_source (item : Item) (cfg : Config) : List Char :=
  let src := pyStrip (if item.source ≠ [] then item.source else item.agency)
  match cfg.mechanism_map.find? (fun kv => containsSub (pyLower kv.1) (pyLower src)) with
  | some kv => kv.2
  | none =>
    if containsSub (strL "grants.gov") (pyLower item.url) then strL "Grants.gov"
    else strL "Other"

/-- One spreadsheet cell: the appended rows mix strings and an integer. -/
inductive Cell where
  | s (v : List Char)
  | i (v : Int)
  deriving DecidableEq

/-- One generated task before row assembly: (name, due, owner, status,
notes), the tuples built at the bottom of prepare_rows. -/
structure TaskSpec where
  name : List Char
  due : List Char
  owner : List Char
  status : List Char
  notes : List Char
  deriving DecidableEq

/-- due = close_date or posted (as parsed dates); the proposal due date. -/
def dueDateOf (item : Item) : Option Int :=
  (parse_date item.close_date).orElse fun _ => parse_date item.posted_date

/-- The anchor for task due dates: due date when present, else today + 30. -/
def taskAnchor (item : Item) (today : Int) : Int :=
  (dueDateOf item).getD (today + 30)

/-- prepare_rows from brassloom_sync_gsu.py: the proposal row (in source
column order) and the seven task tuples. -/
def prepare_rows (item : Item) (cfg : Config) (next_pid : List Char) (today : Int) :
    List Cell × List TaskSpec :=
  let title := pyStrip item.title
  let sponsor := pyStrip (if item.agency ≠ [] then item.agency else item.source)
  let sponsor_type := sponsor_type_from_agency sponsor
  let due := dueDateOf item
  let internal := due.map fun d => d - (cfg.internal_deadline_offset_days.getD 7)
  let mechanism := mechanism_from_source item cfg
  let props_row : List Cell :=
    [Cell.s next_pid,
     Cell.s title,
     Cell.s cfg.default_pi.pid,
     Cell.s cfg.default_pi.name,
     Cell.s cfg.default_pi.dept,
     Cell.s cfg.default_pi.college,
     Cell.s [],
     Cell.s sponsor,
     Cell.s sponsor_type,
     Cell.s (if item.id ≠ [] then item.id else item.assistance_listing),
     Cell.s (match internal with | some d => isoOfDay d | none => []),
     Cell.s (match due with | some d => isoOfDay d | none => []),
     Cell.s mechanism,
     Cell.s (cfg.default_proposal_type.getD (strL "New")),
     Cell.s (cfg.default_status.getD (strL "Department Review")),
     Cell.s [], Cell.s [], Cell.s [],
     Cell.s [], Cell.s [], Cell.s [],
     Cell.s (strL "No"), Cell.s [], Cell.s [],
     Cell.s (strL "No"), Cell.s (strL "No"), Cell.s (strL "No"),
     Cell.s (strL "Yes"), Cell.s (strL "No"), Cell.s (strL "No"),
     Cell.i 0,
     Cell.s (strL "Imported by BrassLoom on " ++ isoOfDay today)]
  let due_for_tasks := taskAnchor item today
  let t := fun (n : Int) => isoOfDay (due_for_tasks - n)
  let tasks : List TaskSpec :=
    [⟨strL "Complete GSU Internal Routing Form", t 10, strL "PI", strL "Pending",
      strL "Attach signed PDF"⟩,
     ⟨strL "COI Disclosures for all key personnel", t 9, strL "PI/OSP", strL "Pending", []⟩,
     ⟨strL "Subrecipient Commitment Form(s)", t 8, strL "OSP", strL "Pending",
      strL "Collect UEI and F&A rate docs"⟩,
     ⟨strL "Export Control & Data Security review", t 8, strL "Compliance", strL "Pending",
      strL "If foreign collaborators or controlled data"⟩,
     ⟨strL "Final Budget & Justification", t 7, strL "OSP Pre-Award", strL "Pending",
      strL "Check salary cap and F&A base"⟩,
     ⟨strL "Create application in " ++ mechanism, t 7, strL "OSP Pre-Award", strL "Pending",
      strL "Confirm FOA & forms"⟩,
     ⟨strL "Dean/Provost cost-share letter (if required)", t 7, strL "Dean/Provost",
      strL "Pending", strL "Upload letter"⟩]
  (props_row, tasks)

/-- The mutable state of the import loop in main of brassloom_sync_gsu.py. -/
structure SyncState where
  existing_titles : List (List Char) := []
  existing_ids : List (List Char) := []
  next_pid : List Char := []
  task_nums : List Nat := []
  wsP : List (List Cell) := []
  wsT : List (List Cell) := []
  added : Nat := 0
  deriving DecidableEq

/-- The inner task-append loop: one workbook Tasks row per task tuple, each
consuming one call of the task-id generator. -/
def appendTasks (pidCell : Cell) (tasks : List TaskSpec) (ns : List Nat)
    (wsT : List (List Cell)) : List Nat × List (List Cell) :=
  tasks.foldl
    (fun acc ts =>
      let g := genTask acc.1
      (g.2, acc.2 ++ [[Cell.s g.1, pidCell, Cell.s ts.name, Cell.s ts.due,
                       Cell.s ts.owner, Cell.s ts.status, Cell.s ts.notes]]))
    (ns, wsT)

/-- One iteration of the import loop of main: skip on empty or duplicate
title, otherwise append the proposal row and its seven task rows and advance
the title set and both id sequences. -/
def importItem (cfg : Config) (today : Int) (st : SyncState) (item : Item) : SyncState :=
  let title := pyLower (pyStrip item.title)
  if title = [] ∨ title ∈ st.existing_titles then st
  else
    let pr := prepare_rows item cfg st.next_pid today
    let pidCell := pr.1.getD 0 (Cell.s [])
    let at2 := appendTasks pidCell pr.2 st.task_nums st.wsT
    { existing_titles := title :: st.existing_titles
      existing_ids := st.existing_ids ++ [st.next_pid]
      next_pid := incrementPid st.next_pid
      task_nums := at2.1
      wsP := st.wsP ++ [pr.1]
      wsT := at2.2
      added := st.added + 1 }

/-- The whole import loop over the chosen records. -/
def importAll (cfg : Config) (today : Int) (st : SyncState) (items : List Item) : SyncState :=
  items.foldl (importItem cfg today) st

/-! Helper lemmas about the string primitives. -/

theorem leadsWith_length_le {p s : List Char} (h : leadsWith p s = true) :
    p.length ≤ s.length := by
  induction p generalizing s with
  | nil => simp
  | cons a p ih =>
    cases s with
    | nil => simp [leadsWith] at h
    | cons b s =>
      simp only [leadsWith, Bool.and_eq_true] at h
      simpa [List.length_cons] using ih h.2

theorem leadsWith_append {p s : List Char} (u : List Char) (h : leadsWith p s = true) :
    leadsWith p (s ++ u) = true := by
  induction p generalizing s with
  | nil => rfl
  | cons a p ih =>
    cases s with
    | nil => simp [leadsWith] at h
    | cons b s =>
      simp only [leadsWith, Bool.and_eq_true] at h
      simp only [List.cons_append, leadsWith, Bool.and_eq_true]
      exact ⟨h.1, ih h.2⟩

theorem leadsWith_self_append (p u : List Char) : leadsWith p (p ++ u) = true := by
  induction p with
  | nil => rfl
  | cons a p ih => simp [leadsWith, ih]

theorem leadsWith_self (p : List Char) : leadsWith p p = true := by
  have := leadsWith_self_append p []
  simpa using this

theorem containsSub_nil (s : List Char) : containsSub [] s = true := by
  cases s <;> simp [containsSub, leadsWith, List.isEmpty]

theorem containsSub_append {p s : List Char} (u : List Char) (h : containsSub p s = true) :
    containsSub p (s ++ u) = true := by
  induction s with
  | nil =>
    simp only [containsSub, List.isEmpty_iff] at h
    subst h
    exact containsSub_nil u
  | cons c t ih =>
    simp only [containsSub, Bool.or_eq_true] at h
    simp only [List.cons_append, containsSub, Bool.or_eq_true]
    rcases h with h | h
    · exact Or.inl (leadsWith_append u h)
    · exact Or.inr (ih h)

theorem drop_append_of_le {n : Nat} {s : List Char} (u : List Char) (h : n ≤ s.length) :
    (s ++ u).drop n = s.drop n ++ u := by
  induction s generalizing n with
  | nil =>
    simp only [List.length_nil, Nat.le_zero] at h
    simp [h]
  | cons c t ih =>
    cases n with
    | zero => simp
    | succ m => simpa using ih (Nat.le_of_succ_le_succ h)

theorem afterOk_append {s : List Char} (u : List Char) (h : afterOk s = true)
    (hu : afterOk u = true) : afterOk (s ++ u) = true := by
  cases s with
  | nil => simpa using hu
  | cons c t => simpa [afterOk] using h

theorem hasWordAux_append {w : List Char} (u : List Char) (hu : afterOk u = true) :
    ∀ {t : List Char} {b : Bool}, hasWordAux w b t = true → hasWordAux w b (t ++ u) = true := by
  intro t
  induction t with
  | nil => intro b h; simp [hasWordAux] at h
  | cons c t ih =>
    intro b h
    simp only [hasWordAux, Bool.or_eq_true, Bool.and_eq_true] at h
    simp only [List.cons_append, hasWordAux, Bool.or_eq_true, Bool.and_eq_true]
    rcases h with ⟨⟨hb, hl⟩, ha⟩ | h
    · left
      have hlen : w.length ≤ (c :: t).length := leadsWith_length_le hl
      refine ⟨⟨hb, ?_⟩, ?_⟩
      · have := leadsWith_append u hl
        simpa using this
      · have hdrop : ((c :: t) ++ u).drop w.length = (c :: t).drop w.length ++ u :=
          drop_append_of_le u hlen
        simp only [List.cons_append] at hdrop
        simp only [List.append_eq]
        rw [hdrop]
        exact afterOk_append u ha hu
    · exact Or.inr (ih h)

theorem hasWordAux_self {w : List Char} (hw : w ≠ []) : hasWordAux w false w = true := by
  cases w with
  | nil => exact absurd rfl hw
  | cons c t =>
    simp only [hasWordAux, Bool.or_eq_true, Bool.and_eq_true]
    left
    refine ⟨⟨rfl, leadsWith_self (c :: t)⟩, ?_⟩
    rw [List.drop_length]
    rfl

theorem hasWordAux_append_self {w : List Char} (hw : w ≠ []) :
    ∀ (t : List Char) (b : Bool), hasWordAux w b (t ++ ' ' :: w) = true := by
  intro t
  induction t with
  | nil =>
    intro b
    have hsp : isWordChar ' ' = false := by decide
    have hin : hasWordAux w (isWordChar ' ') w = true := by
      rw [hsp]; exact hasWordAux_self hw
    simp [hasWordAux, hin]
  | cons c t ih =>
    intro b
    simp only [List.cons_append, hasWordAux, Bool.or_eq_true]
    exact Or.inr (ih (isWordChar c))

/-! Extending the source field extends the lowercased text blob on the
right, which can only create keyword and whole-word matches. -/

theorem textOf_extend (r : Item) (x : List Char) :
    textOf { r with source := r.source ++ x } = textOf r ++ pyLower x := by
  simp [textOf, joinFields, pyLower, List.map_append]

theorem pyLower_space_cons (x : List Char) : pyLower (' ' :: x) = ' ' :: pyLower x := by
  simp [pyLower]

theorem kwCount_le_extend (keywords : List (List Char)) (text u : List Char) :
    (keywords.countP fun kw => containsSub (pyLower kw) text) ≤
      (keywords.countP fun kw => containsSub (pyLower kw) (text ++ u)) :=
  List.countP_mono_left fun _ _ h => containsSub_append u h

theorem wordBonus_le_extend (w text u : List Char) (c : Int) (hc : 0 ≤ c)
    (hu : afterOk u = true) :
    (if hasWord w text then c else 0) ≤ (if hasWord w (text ++ u) then c else 0) := by
  by_cases h : hasWord w text
  · have h2 : hasWord w (text ++ u) = true := hasWordAux_append u hu h
    rw [if_pos h, if_pos h2]
  · rw [if_neg h]
    split <;> simp [hc]

theorem score_item_eq (item : Item) (keywords : List (List Char)) (now : Int) :
    score_item item keywords now =
      10 * ((keywords.countP fun kw => containsSub (pyLower kw) (textOf item) : Nat) : Int)
        + (if hasWord (strL "hbcu") (textOf item) then 20 else 0)
        + (if hasWord (strL "msi") (textOf item) then 15 else 0)
        + urgencyOf item now := rfl

/-! Arithmetic facts about floored day differences. -/

theorem fdiv_86400 (a : Int) : Int.fdiv a 86400 = a / 86400 :=
  Int.fdiv_eq_ediv a (by norm_num)

theorem udl_bounds (now e : Int) :
    e - todayOf now - 1 ≤ urgencyDaysLeft e now ∧ urgencyDaysLeft e now ≤ e - todayOf now := by
  simp only [urgencyDaysLeft, todayOf, fdiv_86400]
  omega

theorem shift_days (now d : Int) :
    Int.fdiv (now - d * 86400) 86400 = todayOf now - d := by
  simp only [todayOf, fdiv_86400]
  omega

/-! The dedup loop keeps exactly the first record seen for each key. -/

theorem keepFirstSeen_cons (r : Item) (rest : List Item) :
    keepFirstSeen (r :: rest) = r :: keepFirstSeen (rest.filter fun x => dedupKey x ≠ dedupKey r) := by
  rw [keepFirstSeen]

theorem dedupGo_eq (seen : List (List Char)) (l : List Item) :
    dedupGo seen l = keepFirstSeen (l.filter fun r => decide (dedupKey r ∉ seen)) := by
  induction l generalizing seen with
  | nil => simp [dedupGo, keepFirstSeen]
  | cons r rest ih =>
    by_cases h : dedupKey r ∈ seen
    · have hf : decide (dedupKey r ∉ seen) = false := by simp [h]
      simp only [dedupGo, if_pos h, List.filter_cons, hf]
      exact ih seen
    · have ht : decide (dedupKey r ∉ seen) = true := by simp [h]
      simp only [dedupGo, if_neg h, List.filter_cons, ht, if_true]
      rw [keepFirstSeen_cons]
      rw [ih (dedupKey r :: seen)]
      congr 1
      rw [List.filter_filter]
      congr 1
      apply List.filter_congr
      intro x _
      simp [List.mem_cons, not_or, decide_eq_true_eq, Bool.and_comm]

theorem dedupList_eq_keepFirstSeen (l : List Item) : dedupList l = keepFirstSeen l := by
  have h := dedupGo_eq [] l
  have h2 : (l.filter fun r => decide (dedupKey r ∉ ([] : List (List Char)))) = l := by
    apply List.filter_eq_self.mpr
    intro a _
    simp
  rw [dedupList, h, h2]

/-! Stability of the descending insertion sort: filtering at any fixed score
commutes with sorting, so ties keep their prior relative order. -/

theorem filter_orderedInsert (s : Int) (x : Item) (m : List Item) :
    (List.orderedInsert scoreGe x m).filter (fun y => y.hbcu_msi_score == s)
      = if x.hbcu_msi_score == s
        then x :: m.filter (fun y => y.hbcu_msi_score == s)
        else m.filter (fun y => y.hbcu_msi_score == s) := by
  induction m with
  | nil =>
    by_cases hx : x.hbcu_msi_score == s <;>
      simp [List.orderedInsert, List.filter_cons, hx]
  | cons b t ih =>
    by_cases hle : scoreGe x b
    · rw [List.orderedInsert_of_le scoreGe t hle]
      by_cases hx : x.hbcu_msi_score == s <;> simp [List.filter_cons, hx]
    · have hstep : List.orderedInsert scoreGe x (b :: t) = b :: List.orderedInsert scoreGe x t := by
        simp [List.orderedInsert, hle]
      rw [hstep]
      by_cases hx : x.hbcu_msi_score == s
      · have hxs : x.hbcu_msi_score = s := by simpa using hx
        have hbs : (b.hbcu_msi_score == s) = false := by
          simp only [scoreGe, not_le] at hle
          simp only [beq_eq_false_iff_ne, ne_eq]
          omega
        simp [List.filter_cons, hbs, ih, hx]
      · simp [List.filter_cons, ih, hx]

theorem filter_sortScoresDesc (s : Int) (l : List Item) :
    (sortScoresDesc l).filter (fun y => y.hbcu_msi_score == s)
      = l.filter (fun y => y.hbcu_msi_score == s) := by
  induction l with
  | nil => rfl
  | cons a l ih =>
    simp only [sortScoresDesc, List.insertionSort] at *
    rw [filter_orderedInsert]
    by_cases hx : a.hbcu_msi_score == s <;> simp [List.filter_cons, hx, ih]

/-! Round trip between the decimal renderer and the digit-run parser, needed
for the in-run proposal-id increment. -/

theorem digitVal_digitCh {d : Nat} (h : d < 10) : digitVal (digitCh d) = d := by
  interval_cases d <;> decide

theorem isDigit_digitCh {d : Nat} (h : d < 10) : (digitCh d).isDigit = true := by
  interval_cases d <;> decide

theorem readNat_append_digit (xs : List Char) (c : Char) :
    readNat (xs ++ [c]) = 10 * readNat xs + digitVal c := by
  simp [readNat, List.foldl_append]

theorem natReprAux_zero (fuel : Nat) : natReprAux fuel 0 = [] := by
  cases fuel <;> rfl

theorem readNat_natReprAux : ∀ fuel n : Nat, 0 < n → n ≤ fuel →
    readNat (natReprAux fuel n) = n := by
  intro fuel
  induction fuel with
  | zero => intro n h1 h2; omega
  | succ f ih =>
    intro n h1 h2
    match n, h1 with
    | n + 1, _ =>
      rw [natReprAux, readNat_append_digit, digitVal_digitCh (Nat.mod_lt _ (by norm_num))]
      by_cases h : (n + 1) / 10 = 0
      · rw [h, natReprAux_zero]
        have : readNat [] = 0 := rfl
        rw [this]
        omega
      · have hlt : (n + 1) / 10 < n + 1 := Nat.div_lt_self (Nat.succ_pos n) (by norm_num)
        rw [ih _ (Nat.pos_of_ne_zero h) (by omega)]
        omega

theorem readNat_natRepr (n : Nat) : readNat (natRepr n) = n := by
  unfold natRepr
  by_cases h : n = 0
  · rw [if_pos h, h]; rfl
  · rw [if_neg h]
    exact readNat_natReprAux n n (Nat.pos_of_ne_zero h) le_rfl

theorem natReprAux_digits : ∀ fuel n : Nat, ∀ c ∈ natReprAux fuel n, c.isDigit = true := by
  intro fuel
  induction fuel with
  | zero => intro n c hc; simp [natReprAux] at hc
  | succ f ih =>
    intro n c hc
    cases n with
    | zero => simp [natReprAux] at hc
    | succ m =>
      rw [natReprAux] at hc
      rcases List.mem_append.mp hc with h1 | h1
      · exact ih _ c h1
      · rw [List.mem_singleton.mp h1]
        exact isDigit_digitCh (Nat.mod_lt _ (by norm_num))

theorem natRepr_digits (n : Nat) : ∀ c ∈ natRepr n, c.isDigit = true := by
  intro c hc
  unfold natRepr at hc
  by_cases h : n = 0
  · rw [if_pos h] at hc
    rw [List.mem_singleton.mp hc]
    decide
  · rw [if_neg h] at hc
    exact natReprAux_digits n n c hc

theorem natRepr_ne_nil (n : Nat) : natRepr n ≠ [] := by
  unfold natRepr
  by_cases h : n = 0
  · rw [if_pos h]; simp
  · rw [if_neg h]
    match n, h with
    | m + 1, _ =>
      rw [natReprAux]
      simp

theorem readNat_zeros (k : Nat) (s : List Char) :
    readNat (List.replicate k '0' ++ s) = readNat s := by
  induction k with
  | zero => rfl
  | succ j ih =>
    have h0 : digitVal '0' = 0 := rfl
    simp only [List.replicate_succ, List.cons_append, readNat, List.foldl_cons] at *
    simpa [h0] using ih

theorem readNat_pad4 (s : List Char) : readNat (pad4 s) = readNat s :=
  readNat_zeros _ s

theorem pad4_digits (s : List Char) (h : ∀ c ∈ s, c.isDigit = true) :
    ∀ c ∈ pad4 s, c.isDigit = true := by
  intro c hc
  rcases List.mem_append.mp hc with h1 | h1
  · rw [List.eq_of_mem_replicate h1]
    decide
  · exact h c h1

theorem pad4_ne_nil (s : List Char) (h : s ≠ []) : pad4 s ≠ [] := by
  unfold pad4
  simp [h]

theorem takeWhile_all {p : Char → Bool} :
    ∀ {s : List Char}, (∀ c ∈ s, p c = true) → s.takeWhile p = s := by
  intro s
  induction s with
  | nil => intro _; rfl
  | cons c t ih =>
    intro h
    rw [List.takeWhile_cons, h c (by simp)]
    simp [ih fun x hx => h x (by simp [hx])]

theorem pidNum_format (pfx : List Char) (n : Nat) :
    pidNum pfx (pfx ++ pad4 (natRepr n)) = some n := by
  unfold pidNum
  rw [if_pos (leadsWith_self_append _ _), List.drop_left]
  rw [takeWhile_all (pad4_digits _ (natRepr_digits n))]
  have hne : (pad4 (natRepr n)).isEmpty = false := by
    rw [List.isEmpty_eq_false]
    exact pad4_ne_nil _ (natRepr_ne_nil n)
  show (if (pad4 (natRepr n)).isEmpty = true then none
        else some (readNat (pad4 (natRepr n)))) = some n
  rw [hne]
  simp [readNat_pad4, readNat_natRepr]

/-! Claim theorems. -/

/-- C1: the claim says the first generated task ID is TSK-(max suffix + 1)
and never collides with an existing ID.  The lambda returned by next_task_id
instead appends last-parsed + 1 (the max-based nxt it computes is dead), so
on existing IDs [TSK-0003, TSK-0001] the first generated ID is TSK-0002, not
TSK-0004, and on [TSK-0001, TSK-0003, TSK-0002] it generates TSK-0003, which
collides with an existing ID. -/
theorem C1_task_id_divergence :
    (genTask (taskNums [strL "TSK-0003", strL "TSK-0001"])).1 = strL "TSK-0002"
    ∧ strL "TSK-0002" ≠ strL "TSK-0004"
    ∧ (genTask (taskNums [strL "TSK-0001", strL "TSK-0003", strL "TSK-0002"])).1
        ∈ [strL "TSK-0001", strL "TSK-0003", strL "TSK-0002"] := by
  decide

/-- C2 counterexample: with close_date 1970-02-01 (day 31) and now at noon of
day 0, close_date - today = 31 days, so the claim predicts a +5 bonus; the
code floors (midnight - now) and lands at days_left = 30, giving +10. -/
theorem C2_urgency_counterexample :
    fromIso10 (strL "1970-02-01") = some 31
    ∧ todayOf 43200 = 0
    ∧ score_item { close_date := strL "1970-02-01" } [] 43200 = 10
    ∧ score_item { close_date := strL "1970-02-01" } [] 43200 ≠ 5 := by
  decide

/-- C2 (amended): the urgency bonus is determined by
days_left = fdiv (close_midnight - now) 86400 (the code subtracts the current
instant, not the current date, and the timedelta day count floors), added on
top of the close-date-independent part of the score; a close date k calendar
days ahead therefore yields days_left of k or k - 1 depending on the time of
day, and the four concrete examples of the claim (15 days -> +10,
45 days -> +5, 90 days -> +0, 5 days past -> +0) hold at every time of day. -/
theorem C2_urgency_amended :
    (∀ (item : Item) (keywords : List (List Char)) (now d : Int),
        item.close_date ≠ [] → fromIso10 item.close_date = some d →
        score_item item keywords now
          = score_item { item with close_date := [] } keywords now + urgencyBonus d now)
    ∧ (∀ now : Int, urgencyBonus (todayOf now + 15) now = 10)
    ∧ (∀ now : Int, urgencyBonus (todayOf now + 45) now = 5)
    ∧ (∀ now : Int, urgencyBonus (todayOf now + 90) now = 0)
    ∧ (∀ now : Int, urgencyBonus (todayOf now - 5) now = 0) := by
  refine ⟨?_, ?_, ?_, ?_, ?_⟩
  · intro item keywords now d h1 h2
    have htext : textOf { item with close_date := [] } = textOf item := rfl
    rw [score_item_eq, score_item_eq, htext]
    have hu1 : urgencyOf item now = urgencyBonus d now := by
      simp [urgencyOf, h1, h2]
    have hu2 : urgencyOf { item with close_date := [] } now = 0 := by
      simp [urgencyOf]
    rw [hu1, hu2]
    ring
  · intro now
    obtain ⟨h1, h2⟩ := udl_bounds now (todayOf now + 15)
    unfold urgencyBonus
    rw [if_pos ⟨by omega, by omega⟩]
  · intro now
    obtain ⟨h1, h2⟩ := udl_bounds now (todayOf now + 45)
    unfold urgencyBonus
    rw [if_neg (by omega), if_pos ⟨by omega, by omega⟩]
  · intro now
    obtain ⟨h1, h2⟩ := udl_bounds now (todayOf now + 90)
    unfold urgencyBonus
    rw [if_neg (by omega), if_neg (by omega)]
  · intro now
    obtain ⟨h1, h2⟩ := udl_bounds now (todayOf now - 5)
    unfold urgencyBonus
    rw [if_neg (by omega), if_neg (by omega)]

/-- Witness for C2 (amended): close_date 1970-01-16 is day 15; at now = 0 the
urgency addend is exactly urgencyBonus 15 0. -/
theorem C2_urgency_amended_witness :
    score_item { close_date := strL "1970-01-16" } [] 0
      = score_item { ({ close_date := strL "1970-01-16" } : Item) with close_date := [] } [] 0
          + urgencyBonus 15 0 :=
  C2_urgency_amended.1 { close_date := strL "1970-01-16" } [] 0 15 (by decide) (by decide)

/-- C4: proposal IDs scan existing GSU-P-NNNN IDs with max + 1 (or 1 when
none match), zero-padded to four digits; the empty set gives GSU-P-0001, the
set with 0001 and 0003 gives GSU-P-0004, and the in-run increment of main
always advances a formatted ID to the numerically next formatted ID. -/
theorem C4_proposal_ids :
    next_id [] (strL "GSU-P-") = strL "GSU-P-0001"
    ∧ next_id [strL "GSU-P-0001", strL "GSU-P-0003"] (strL "GSU-P-") = strL "GSU-P-0004"
    ∧ ∀ n : Nat,
        incrementPid (strL "GSU-P-" ++ pad4 (natRepr n))
          = strL "GSU-P-" ++ pad4 (natRepr (n + 1)) := by
  refine ⟨by decide, by decide, ?_⟩
  intro n
  unfold incrementPid
  rw [pidNum_format]

/-- C8 counterexample: the claim says every agency string that matches no
federal and no state keyword maps to Nonprofit, including the empty string;
the code returns the empty string for an empty agency. -/
theorem C8_empty_agency_counterexample :
    sponsor_type_from_agency [] = [] ∧ sponsor_type_from_agency [] ≠ strL "Nonprofit" := by
  decide

/-- C8 (amended): for a non-empty agency string the fixed substring rules
hold (federal keywords -> Federal, else board-of-regents/state -> State, else
Nonprofit); the empty agency string short-circuits to the empty string. -/
theorem C8_sponsor_type_amended :
    sponsor_type_from_agency [] = []
    ∧ (∀ a : List Char, a ≠ [] →
        (fedKeys.any fun k => containsSub k (pyLower a)) = true →
        sponsor_type_from_agency a = strL "Federal")
    ∧ (∀ a : List Char, a ≠ [] →
        (fedKeys.any fun k => containsSub k (pyLower a)) = false →
        (containsSub (strL "board of regents") (pyLower a)
          || containsSub (strL "state") (pyLower a)) = true →
        sponsor_type_from_agency a = strL "State")
    ∧ (∀ a : List Char, a ≠ [] →
        (fedKeys.any fun k => containsSub k (pyLower a)) = false →
        (containsSub (strL "board of regents") (pyLower a)
          || containsSub (strL "state") (pyLower a)) = false →
        sponsor_type_from_agency a = strL "Nonprofit")
    ∧ sponsor_type_from_agency (strL "NASA HQ") = strL "Federal"
    ∧ sponsor_type_from_agency (strL "Georgia Board of Regents") = strL "State"
    ∧ sponsor_type_from_agency (strL "Ford Foundation") = strL "Nonprofit" := by
  refine ⟨rfl, ?_, ?_, ?_, by decide, by decide, by decide⟩
  · intro a h1 h2
    simp [sponsor_type_from_agency, h1, h2]
  · intro a h1 h2 h3
    simp [sponsor_type_from_agency, h1, h2, h3]
  · intro a h1 h2 h3
    simp [sponsor_type_from_agency, h1, h2, h3]

/-- Witness for C8 (amended): a non-empty agency matching no keyword list is
classified Nonprofit. -/
theorem C8_sponsor_type_amended_witness :
    sponsor_type_from_agency (strL "Quiet Trust") = strL "Nonprofit" :=
  C8_sponsor_type_amended.2.2.2.1 (strL "Quiet Trust") (by decide) (by decide) (by decide)

/-- C9: within_days treats the empty string, strings whose first ten
characters do not parse as an ISO date (including strings shorter than ten
characters), and otherwise unparseable dates as within range; it returns
false exactly when the date parses to a day d with today - d > days. -/
theorem C9_within_days_leniency (s : List Char) (days now : Int) :
    (fromIso10 s = none → within_days s days now = true)
    ∧ (within_days s days now = false
        ↔ ∃ d, fromIso10 s = some d ∧ days < todayOf now - d)
    ∧ within_days [] days now = true
    ∧ within_days (strL "2025-06") days now = true := by
  refine ⟨?_, ?_, rfl, rfl⟩
  · intro h
    by_cases hs : s = []
    · simp [within_days, hs]
    · simp [within_days, hs, h]
  · by_cases hs : s = []
    · have hnone : fromIso10 ([] : List Char) = none := rfl
      simp [within_days, hs, hnone]
    · cases h : fromIso10 s with
      | none => simp [within_days, hs, h]
      | some d =>
        simp only [within_days, if_neg hs, h, shift_days]
        constructor
        · intro hf
          refine ⟨d, rfl, ?_⟩
          have := by simpa [decide_eq_false_iff_not, not_le] using hf
          omega
        · rintro ⟨d', hd', hlt⟩
          rw [Option.some_inj] at hd'
          subst hd'
          simp only [decide_eq_false_iff_not, not_le]
          omega

/-- Witness for C9: an unparseable date string is within range. -/
theorem C9_within_days_leniency_witness :
    within_days (strL "not-a-date") 5 0 = true :=
  (C9_within_days_leniency (strL "not-a-date") 5 0).1 (by decide)

/-- C3: de-duplication keeps exactly the first-seen record per dedup key
(url if present, else id), and the survivors are then sorted by
hbcu_msi_score descending by a stable sort: the result is a permutation of
the deduplicated list, pairwise descending, and filtering at any fixed score
value returns the tied records in their prior relative order. -/
theorem C3_dedup_then_stable_sort (l : List Item) (s : Int) :
    dedupList l = keepFirstSeen l
    ∧ (dedupAndSort l).Perm (dedupList l)
    ∧ (dedupAndSort l).Pairwise scoreGe
    ∧ (dedupAndSort l).filter (fun y => y.hbcu_msi_score == s)
        = (dedupList l).filter (fun y => y.hbcu_msi_score == s) := by
  refine ⟨dedupList_eq_keepFirstSeen l, ?_, ?_, filter_sortScoresDesc s (dedupList l)⟩
  · exact List.perm_insertionSort scoreGe (dedupList l)
  · exact List.sorted_insertionSort scoreGe (dedupList l)

/-- C5: every imported proposal gets exactly seven tasks, in a fixed order,
with due dates offset 10, 9, 8, 8, 7, 7, 7 days before the anchor (the
proposal due date when present, else today + 30); for close_date 2025-06-30
the seven dates are 06-20, 06-21, 06-22, 06-22, 06-23, 06-23, 06-23. -/
theorem C5_seven_fixed_tasks (item : Item) (cfg : Config) (pid : List Char) (today : Int) :
    (prepare_rows item cfg pid today).2.length = 7
    ∧ (prepare_rows item cfg pid today).2.map TaskSpec.due
        = ([10, 9, 8, 8, 7, 7, 7] : List Int).map (fun n => isoOfDay (taskAnchor item today - n))
    ∧ (prepare_rows item cfg pid today).2.map TaskSpec.name
        = [strL "Complete GSU Internal Routing Form",
           strL "COI Disclosures for all key personnel",
           strL "Subrecipient Commitment Form(s)",
           strL "Export Control & Data Security review",
           strL "Final Budget & Justification",
           strL "Create application in " ++ mechanism_from_source item cfg,
           strL "Dean/Provost cost-share letter (if required)"]
    ∧ (item.close_date = strL "2025-06-30" →
        (prepare_rows item cfg pid today).2.map TaskSpec.due
          = [strL "2025-06-20", strL "2025-06-21", strL "2025-06-22", strL "2025-06-22",
             strL "2025-06-23", strL "2025-06-23", strL "2025-06-23"]) := by
  refine ⟨rfl, rfl, rfl, ?_⟩
  intro h
  have hp : parse_date item.close_date = some (daysFromCivil 2025 6 30) := by
    rw [h]; decide
  have h3 : taskAnchor item today = daysFromCivil 2025 6 30 := by
    simp [taskAnchor, dueDateOf, hp]
  have h2 : (prepare_rows item cfg pid today).2.map TaskSpec.due
      = ([10, 9, 8, 8, 7, 7, 7] : List Int).map (fun n => isoOfDay (taskAnchor item today - n)) :=
    rfl
  rw [h2, h3]
  decide

/-- Witness for C5: the concrete record with close_date 2025-06-30. -/
theorem C5_seven_fixed_tasks_witness :
    (prepare_rows { close_date := strL "2025-06-30" } {} [] 0).2.map TaskSpec.due
      = [strL "2025-06-20", strL "2025-06-21", strL "2025-06-22", strL "2025-06-22",
         strL "2025-06-23", strL "2025-06-23", strL "2025-06-23"] :=
  (C5_seven_fixed_tasks { close_date := strL "2025-06-30" } {} [] 0).2.2.2 rfl

/-- C6 counterexample: extending the description by " x" adds a match for
keyword "x" but destroys the matches of the multi-word keywords "a b" and
"a b c" that previously spanned the description/eligibility join, so the
score drops from 20 to 10 although a keyword match was added. -/
theorem C6_keyword_monotonicity_counterexample :
    containsSub (pyLower (strL "x"))
        (textOf { description := strL "a", eligibility := strL "b c" }) = false
    ∧ containsSub (pyLower (strL "x"))
        (textOf { description := strL "a x", eligibility := strL "b c" }) = true
    ∧ score_item { description := strL "a", eligibility := strL "b c" }
        [strL "a b", strL "a b c", strL "x"] 0 = 20
    ∧ score_item { description := strL "a x", eligibility := strL "b c" }
        [strL "a b", strL "a b c", strL "x"] 0 = 10 := by
  decide

/-- C6 (amended): the scorer is monotone under appending text at the end of
the blob: extending the source field (the last field of the concatenation)
by a space-separated suffix, in particular by a new keyword, never decreases
the score.  Adding a match in the middle of the blob can decrease the score,
as the counterexample shows. -/
theorem C6_keyword_monotonicity_amended (item : Item) (keywords : List (List Char))
    (now : Int) (sfx : List Char) :
    score_item item keywords now ≤
      score_item { item with source := item.source ++ ' ' :: sfx } keywords now := by
  have htext : textOf { item with source := item.source ++ ' ' :: sfx }
      = textOf item ++ ' ' :: pyLower sfx := by
    rw [textOf_extend, pyLower_space_cons]
  have hafter : afterOk (' ' :: pyLower sfx) = true := by
    show (!isWordChar ' ') = true
    decide
  have hurg : urgencyOf { item with source := item.source ++ ' ' :: sfx } now
      = urgencyOf item now := rfl
  rw [score_item_eq, score_item_eq, htext, hurg]
  have h1 := kwCount_le_extend keywords (textOf item) (' ' :: pyLower sfx)
  have h1c : ((keywords.countP fun kw => containsSub (pyLower kw) (textOf item) : Nat) : Int)
      ≤ ((keywords.countP fun kw =>
            containsSub (pyLower kw) (textOf item ++ ' ' :: pyLower sfx) : Nat) : Int) := by
    exact_mod_cast h1
  have h2 := wordBonus_le_extend (strL "hbcu") (textOf item) (' ' :: pyLower sfx) 20
    (by norm_num) hafter
  have h3 := wordBonus_le_extend (strL "msi") (textOf item) (' ' :: pyLower sfx) 15
    (by norm_num) hafter
  linarith

/-- C7 counterexample: the title "x  y" is "x HBCU y" with the four
characters of HBCU deleted; the deletion makes the two-space keyword "x  y"
match, so the score only drops from 20 to 10 and the claimed gap of at least
20 fails. -/
theorem C7_hbcu_removal_counterexample :
    hasWord (strL "hbcu") (textOf { title := strL "x HBCU y" }) = true
    ∧ score_item { title := strL "x HBCU y" } [strL "x  y"] 0 = 20
    ∧ score_item { title := strL "x  y" } [strL "x  y"] 0 = 10
    ∧ ¬ (score_item { title := strL "x  y" } [strL "x  y"] 0 + 20
          ≤ score_item { title := strL "x HBCU y" } [strL "x  y"] 0) := by
  decide

/-- C7 (amended): the whole-word HBCU boost is a flat +20 on top of the
keyword score.  For any record whose text does not yet contain HBCU as a
whole word, appending " HBCU" raises the score by at least 20.  Removing an
HBCU token from the middle of the text may create new keyword matches and
shrink the gap below 20, as the counterexample shows. -/
theorem C7_hbcu_bonus_amended (item : Item) (keywords : List (List Char)) (now : Int)
    (h : hasWord (strL "hbcu") (textOf item) = false) :
    score_item item keywords now + 20 ≤
      score_item { item with source := item.source ++ strL " HBCU" } keywords now := by
  have hlow : pyLower (strL " HBCU") = ' ' :: strL "hbcu" := by decide
  have htext : textOf { item with source := item.source ++ strL " HBCU" }
      = textOf item ++ ' ' :: strL "hbcu" := by
    rw [textOf_extend, hlow]
  have hafter : afterOk (' ' :: strL "hbcu") = true := by decide
  have hurg : urgencyOf { item with source := item.source ++ strL " HBCU" } now
      = urgencyOf item now := rfl
  rw [score_item_eq, score_item_eq, htext, hurg]
  have h1 := kwCount_le_extend keywords (textOf item) (' ' :: strL "hbcu")
  have h1c : ((keywords.countP fun kw => containsSub (pyLower kw) (textOf item) : Nat) : Int)
      ≤ ((keywords.countP fun kw =>
            containsSub (pyLower kw) (textOf item ++ ' ' :: strL "hbcu") : Nat) : Int) := by
    exact_mod_cast h1
  have h0 : (if hasWord (strL "hbcu") (textOf item) then (20 : Int) else 0) = 0 := by
    rw [h]
    simp
  have h2 : (if hasWord (strL "hbcu") (textOf item ++ ' ' :: strL "hbcu") then (20 : Int) else 0)
      = 20 := by
    have hh : hasWord (strL "hbcu") (textOf item ++ ' ' :: strL "hbcu") = true :=
      hasWordAux_append_self (by decide) (textOf item) false
    rw [if_pos hh]
  have h3 := wordBonus_le_extend (strL "msi") (textOf item) (' ' :: strL "hbcu") 15
    (by norm_num) hafter
  linarith

/-- Witness for C7 (amended): the empty record gains at least 20 from an
appended HBCU token. -/
theorem C7_hbcu_bonus_amended_witness :
    hasWord (strL "hbcu") (textOf ({} : Item)) = false
    ∧ score_item ({} : Item) [] 0 + 20
        ≤ score_item { ({} : Item) with source := ([] : List Char) ++ strL " HBCU" } [] 0 :=
  ⟨by decide, C7_hbcu_bonus_amended {} [] 0 (by decide)⟩

/-- C10: a candidate whose title strips to the empty string (missing, empty,
or whitespace-only) is skipped silently: the import loop iteration leaves
the whole state unchanged, so no proposal row, no task rows, and neither id
sequence advances. -/
theorem C10_blank_title_skipped (cfg : Config) (today : Int) (st : SyncState) (item : Item)
    (h : pyStrip item.title = []) : importItem cfg today st item = st := by
  unfold importItem
  rw [h]
  simp [pyLower]

/-- Witness for C10: a whitespace-only title leaves the empty state
unchanged. -/
theorem C10_blank_title_skipped_witness :
    pyStrip (strL "   ") = []
    ∧ importItem {} 0 {} { title := strL "   " } = {} :=
  ⟨by decide, C10_blank_title_skipped {} 0 {} { title := strL "   " } (by decide)⟩

